import Mathlib

/-
Verification of the performance-infrastructure toolkit of the vibecoding
repository (Study-04/backend): the LRU/TTL caches and tiered cache manager
(cache_manager.py), the token-bucket and sliding-window rate limiters
(rate_limiter.py), the session manager (auth_optimized.py), and the
connection pool (database_optimized.py).

Modelling conventions:
- Python dicts / OrderedDicts over string keys are association lists
  (front of the list = oldest / least-recently-used position).
- Wall-clock times (time.time()) and float arithmetic are modelled over ℚ;
  every concrete value appearing in the claims is exactly representable.
- A Python object that may be None is modelled as an Option: the Lean value
  none is Python's None.  Cache stores hold values of type Option β so that
  a stored None is representable.
- Operations that can raise in Python (StopIteration in LRUCache.set when
  evicting from an empty dict, ZeroDivisionError in
  TokenBucketRateLimiter.consume, KeyError in SessionManager.create_session,
  IndexError in SlidingWindowRateLimiter.is_allowed) return Option, with
  none marking the raising path.
- Entropy (secrets.token_urlsafe) and the current time are passed in as
  explicit arguments.
-/

namespace VibeCoding

/-- Python dict lookup over an association list: d[k] as an Option. -/
def lookup {α : Type} (k : String) : List (String × α) → Option α
  | [] => none
  | (k1, v) :: rest => if k1 = k then some v else lookup k rest

/-- Python dict removal (del d[k] / d.pop(k, None)).  Dict keys are unique,
so dropping every binding of k removes exactly the one entry. -/
def eraseKey {α : Type} (k : String) : List (String × α) → List (String × α)
  | [] => []
  | (k1, v) :: rest => if k1 = k then eraseKey k rest else (k1, v) :: eraseKey k rest

/-- Python dict assignment d[k] = v: update in place if the key is present
(keeping its position), otherwise append at the end. -/
def setKey {α : Type} (k : String) (v : α) : List (String × α) → List (String × α)
  | [] => [(k, v)]
  | (k1, v1) :: rest => if k1 = k then (k, v) :: rest else (k1, v1) :: setKey k v rest

/-- OrderedDict.move_to_end(k): move the binding of k to the back (the
most-recently-used position).  The Python callers only invoke it on keys
that are present; on an absent key this model leaves the list unchanged. -/
def moveToEnd {α : Type} (k : String) (l : List (String × α)) : List (String × α) :=
  match lookup k l with
  | none => l
  | some v => eraseKey k l ++ [(k, v)]

@[simp] theorem lookup_nil {α : Type} (k : String) : lookup k ([] : List (String × α)) = none := rfl

@[simp] theorem lookup_cons {α : Type} (k k1 : String) (v : α) (rest : List (String × α)) :
    lookup k ((k1, v) :: rest) = if k1 = k then some v else lookup k rest := rfl

theorem lookup_append {α : Type} (k : String) (l1 l2 : List (String × α)) :
    lookup k (l1 ++ l2) = ((lookup k l1).rec (lookup k l2) (fun v => some v)) := by
  induction l1 with
  | nil => rfl
  | cons p rest ih =>
    obtain ⟨k1, v⟩ := p
    by_cases h : k1 = k <;> simp [lookup, h, ih]

theorem lookup_append_of_none {α : Type} {k : String} {l1 : List (String × α)}
    (h : lookup k l1 = none) (l2 : List (String × α)) :
    lookup k (l1 ++ l2) = lookup k l2 := by
  rw [lookup_append, h]

theorem lookup_append_of_some {α : Type} {k : String} {l1 : List (String × α)} {v : α}
    (h : lookup k l1 = some v) (l2 : List (String × α)) :
    lookup k (l1 ++ l2) = some v := by
  rw [lookup_append, h]

@[simp] theorem lookup_eraseKey_self {α : Type} (k : String) (l : List (String × α)) :
    lookup k (eraseKey k l) = none := by
  induction l with
  | nil => rfl
  | cons p rest ih =>
    obtain ⟨k1, v⟩ := p
    by_cases h : k1 = k <;> simp [eraseKey, lookup, h, ih]

theorem lookup_eraseKey_ne {α : Type} {k1 k : String} (h : k1 ≠ k) (l : List (String × α)) :
    lookup k1 (eraseKey k l) = lookup k1 l := by
  induction l with
  | nil => rfl
  | cons p rest ih =>
    obtain ⟨k2, v⟩ := p
    by_cases h2 : k2 = k
    · subst h2
      simp [eraseKey, lookup, Ne.symm h, ih]
    · by_cases h3 : k2 = k1 <;> simp [eraseKey, lookup, h2, h3, h, ih]

theorem eraseKey_of_lookup_none {α : Type} {k : String} {l : List (String × α)}
    (h : lookup k l = none) : eraseKey k l = l := by
  induction l with
  | nil => rfl
  | cons p rest ih =>
    obtain ⟨k1, v⟩ := p
    by_cases h1 : k1 = k
    · simp [lookup, h1] at h
    · simp [lookup, h1] at h
      simp [eraseKey, h1] at ih ⊢
      exact ih h

theorem length_eraseKey_le {α : Type} (k : String) (l : List (String × α)) :
    (eraseKey k l).length ≤ l.length := by
  induction l with
  | nil => exact Nat.le_refl _
  | cons p rest ih =>
    obtain ⟨k1, v1⟩ := p
    by_cases h1 : k1 = k
    · simp only [eraseKey, if_pos h1]
      exact Nat.le_succ_of_le ih
    · simp only [eraseKey, if_neg h1, List.length_cons]
      exact Nat.succ_le_succ ih

theorem length_eraseKey_lt {α : Type} {k : String} {l : List (String × α)} {v : α}
    (h : lookup k l = some v) : (eraseKey k l).length < l.length := by
  induction l with
  | nil => simp [lookup] at h
  | cons p rest ih =>
    obtain ⟨k1, v1⟩ := p
    by_cases h1 : k1 = k
    · simp only [eraseKey, if_pos h1, List.length_cons]
      exact Nat.lt_succ_of_le (length_eraseKey_le k rest)
    · simp [lookup, h1] at h
      simp only [eraseKey, if_neg h1, List.length_cons]
      exact Nat.succ_lt_succ (ih h)

theorem setKey_of_lookup_none {α : Type} {k : String} {l : List (String × α)}
    (h : lookup k l = none) (v : α) : setKey k v l = l ++ [(k, v)] := by
  induction l with
  | nil => rfl
  | cons p rest ih =>
    obtain ⟨k1, v1⟩ := p
    by_cases h1 : k1 = k
    · simp [lookup, h1] at h
    · simp [lookup, h1] at h
      simp [setKey, h1, ih h]

@[simp] theorem lookup_setKey_self {α : Type} (k : String) (v : α) (l : List (String × α)) :
    lookup k (setKey k v l) = some v := by
  induction l with
  | nil => simp [setKey, lookup]
  | cons p rest ih =>
    obtain ⟨k1, v1⟩ := p
    by_cases h1 : k1 = k <;> simp [setKey, lookup, h1, ih]

theorem lookup_setKey_ne {α : Type} {k1 k : String} (h : k1 ≠ k) (v : α) (l : List (String × α)) :
    lookup k1 (setKey k v l) = lookup k1 l := by
  induction l with
  | nil => simp [setKey, lookup, Ne.symm h]
  | cons p rest ih =>
    obtain ⟨k2, v1⟩ := p
    by_cases h2 : k2 = k
    · subst h2
      simp [setKey, lookup, Ne.symm h]
    · by_cases h3 : k2 = k1 <;> simp [setKey, lookup, h2, h3, h, Ne.symm h, ih]

theorem length_setKey_of_lookup_some {α : Type} {k : String} {l : List (String × α)} {v1 : α}
    (h : lookup k l = some v1) (v : α) : (setKey k v l).length = l.length := by
  induction l with
  | nil => simp [lookup] at h
  | cons p rest ih =>
    obtain ⟨k1, v2⟩ := p
    by_cases h1 : k1 = k
    · simp [setKey, h1]
    · simp [lookup, h1] at h
      simp [setKey, h1, ih h]

theorem moveToEnd_of_lookup_none {α : Type} {k : String} {l : List (String × α)}
    (h : lookup k l = none) : moveToEnd k l = l := by
  unfold moveToEnd
  rw [h]

theorem moveToEnd_of_lookup_some {α : Type} {k : String} {l : List (String × α)} {v : α}
    (h : lookup k l = some v) : moveToEnd k l = eraseKey k l ++ [(k, v)] := by
  unfold moveToEnd
  rw [h]

theorem length_moveToEnd_le {α : Type} (k : String) (l : List (String × α)) :
    (moveToEnd k l).length ≤ l.length := by
  unfold moveToEnd
  cases h : lookup k l with
  | none => exact Nat.le_refl _
  | some v =>
    simp only [List.length_append, List.length_singleton]
    exact Nat.succ_le_of_lt (length_eraseKey_lt h)

theorem lookup_moveToEnd_self {α : Type} (k : String) (l : List (String × α)) :
    lookup k (moveToEnd k l) = lookup k l := by
  unfold moveToEnd
  cases h : lookup k l with
  | none => exact h
  | some v =>
    rw [lookup_append_of_none (lookup_eraseKey_self k l)]
    simp [lookup]

theorem lookup_moveToEnd_ne {α : Type} {k1 k : String} (h : k1 ≠ k) (l : List (String × α)) :
    lookup k1 (moveToEnd k l) = lookup k1 l := by
  unfold moveToEnd
  cases h2 : lookup k l with
  | none => rfl
  | some v =>
    rw [lookup_append, lookup_eraseKey_ne h l]
    cases h3 : lookup k1 l <;> simp [lookup, Ne.symm h]

/-! LRUCache (cache_manager.py, class LRUCache).  The OrderedDict self.cache
is the association list (front = least recently used); self.timestamps is the
plain dict of insertion times; hits and misses are the stat counters. -/

structure LRUCache (β : Type) where
  max_size : Int
  ttl : ℚ
  cache : List (String × Option β)
  timestamps : List (String × ℚ)
  hits : Nat
  misses : Nat

/-- LRUCache.__init__: stores max_size and ttl unchecked, with empty dicts
and zeroed counters.  There is no validation of max_size or ttl. -/
def LRUCache.init (β : Type) (max_size : Int) (ttl : ℚ) : LRUCache β :=
  { max_size := max_size, ttl := ttl, cache := [], timestamps := [], hits := 0, misses := 0 }

/-- LRUCache.get: miss on absent key; if ttl > 0 and the entry is older than
ttl, purge it and miss; otherwise move the key to the most-recent end,
count a hit, and return the stored value (which may itself be Python None). -/
def LRUCache.get {β : Type} (c : LRUCache β) (now : ℚ) (key : String) :
    Option β × LRUCache β :=
  match lookup key c.cache with
  | none => (none, { c with misses := c.misses + 1 })
  | some v =>
    if c.ttl > 0 ∧ now - ((lookup key c.timestamps).getD 0) > c.ttl then
      (none, { c with cache := eraseKey key c.cache,
                      timestamps := eraseKey key c.timestamps,
                      misses := c.misses + 1 })
    else
      (v, { c with cache := moveToEnd key c.cache, hits := c.hits + 1 })

/-- LRUCache.set: when inserting a new key at capacity, evict the front
(least-recently-used) entry first; then write the value and timestamp and
move the key to the most-recent end.  Returns none on the path where Python
raises StopIteration: next(iter(self.cache)) on an empty dict, reachable
only when max_size ≤ 0. -/
def LRUCache.set {β : Type} (c : LRUCache β) (now : ℚ) (key : String) (value : Option β) :
    Option (LRUCache β) :=
  if (lookup key c.cache).isNone ∧ (c.cache.length : Int) ≥ c.max_size then
    match c.cache with
    | [] => none
    | (oldest, _) :: rest =>
      some { c with cache := moveToEnd key (setKey key value rest),
                    timestamps := setKey key now (eraseKey oldest c.timestamps) }
  else
    some { c with cache := moveToEnd key (setKey key value c.cache),
                  timestamps := setKey key now c.timestamps }

/-- LRUCache.invalidate: a truthy key removes that entry; None or the empty
string (falsy in Python) clears the whole cache. -/
def LRUCache.invalidate {β : Type} (c : LRUCache β) (key : Option String) : LRUCache β :=
  match key with
  | some k =>
    if k = "" then { c with cache := [], timestamps := [] }
    else { c with cache := eraseKey k c.cache, timestamps := eraseKey k c.timestamps }
  | none => { c with cache := [], timestamps := [] }

/-- Operation alphabet for a sequence of LRUCache calls. -/
inductive CacheOp (β : Type) where
  | get (now : ℚ) (key : String)
  | set (now : ℚ) (key : String) (value : Option β)
  | invalidate (key : Option String)

/-- One LRUCache call; the raising path of set propagates as none. -/
def LRUCache.applyOp {β : Type} (c : LRUCache β) : CacheOp β → Option (LRUCache β)
  | .get now key => some (c.get now key).2
  | .set now key v => c.set now key v
  | .invalidate key => some (c.invalidate key)

/-- Iterated LRUCache calls. -/
def LRUCache.runOps {β : Type} (c : LRUCache β) : List (CacheOp β) → Option (LRUCache β)
  | [] => some c
  | op :: ops =>
    match c.applyOp op with
    | none => none
    | some c1 => c1.runOps ops

theorem eraseKey_append {α : Type} (k : String) (l1 l2 : List (String × α)) :
    eraseKey k (l1 ++ l2) = eraseKey k l1 ++ eraseKey k l2 := by
  induction l1 with
  | nil => rfl
  | cons p rest ih =>
    obtain ⟨k1, v⟩ := p
    by_cases h : k1 = k <;> simp [eraseKey, h, ih]

/-- Writing a fresh key and moving it to the end appends it. -/
theorem moveToEnd_setKey_of_none {α : Type} {k : String} {l : List (String × α)}
    (h : lookup k l = none) (v : α) : moveToEnd k (setKey k v l) = l ++ [(k, v)] := by
  rw [setKey_of_lookup_none h]
  rw [moveToEnd_of_lookup_some (v := v)]
  · rw [eraseKey_append, eraseKey_of_lookup_none h]
    simp [eraseKey]
  · rw [lookup_append_of_none h]
    simp [lookup]

theorem length_moveToEnd_setKey_of_some {α : Type} {k : String} {l : List (String × α)} {w : α}
    (h : lookup k l = some w) (v : α) :
    (moveToEnd k (setKey k v l)).length ≤ l.length := by
  rw [moveToEnd_of_lookup_some (lookup_setKey_self k v l)]
  simp only [List.length_append, List.length_singleton]
  have h1 : (eraseKey k (setKey k v l)).length < (setKey k v l).length :=
    length_eraseKey_lt (lookup_setKey_self k v l)
  have h2 := length_setKey_of_lookup_some h v
  omega

theorem lookup_map_pair_of_mem {β : Type} {k : String} {ks : List String}
    (g : String → β) (h : k ∈ ks) :
    lookup k (ks.map (fun k1 => (k1, g k1))) = some (g k) := by
  induction ks with
  | nil => cases h
  | cons k1 rest ih =>
    by_cases h1 : k1 = k
    · subst h1
      simp [lookup]
    · rcases List.mem_cons.mp h with h2 | h2
      · exact absurd h2.symm h1
      · simp [lookup, h1, ih h2]

theorem lookup_map_pair_of_not_mem {β : Type} {k : String} {ks : List String}
    (g : String → β) (h : k ∉ ks) :
    lookup k (ks.map (fun k1 => (k1, g k1))) = none := by
  induction ks with
  | nil => rfl
  | cons k1 rest ih =>
    have h1 : k1 ≠ k := fun e => h (e ▸ List.mem_cons_self k1 rest)
    have h2 : k ∉ rest := fun e => h (List.mem_cons_of_mem k1 e)
    simp [lookup, h1, ih h2]

/-- Capacity is preserved by a single completed LRUCache operation, and so
is the bound len(cache) ≤ max_size. -/
theorem LRUCache.applyOp_inv {β : Type} {c c1 : LRUCache β} {op : CacheOp β}
    (hC : 0 < c.max_size) (hlen : (c.cache.length : Int) ≤ c.max_size)
    (h : c.applyOp op = some c1) :
    c1.max_size = c.max_size ∧ (c1.cache.length : Int) ≤ c.max_size := by
  cases op with
  | get now key =>
    simp only [applyOp, Option.some.injEq] at h
    subst h
    cases h1 : lookup key c.cache with
    | none =>
      simp only [LRUCache.get, h1]
      exact ⟨trivial, hlen⟩
    | some v =>
      by_cases h2 : c.ttl > 0 ∧ now - ((lookup key c.timestamps).getD 0) > c.ttl
      · simp only [LRUCache.get, h1, if_pos h2]
        refine ⟨trivial, le_trans ?_ hlen⟩
        exact_mod_cast length_eraseKey_le key c.cache
      · simp only [LRUCache.get, h1, if_neg h2]
        refine ⟨trivial, le_trans ?_ hlen⟩
        exact_mod_cast length_moveToEnd_le key c.cache
  | set now key v =>
    simp only [applyOp] at h
    unfold LRUCache.set at h
    by_cases hg : (lookup key c.cache).isNone ∧ (c.cache.length : Int) ≥ c.max_size
    · rw [if_pos hg] at h
      obtain ⟨habs, hfull⟩ := hg
      cases hc : c.cache with
      | nil => rw [hc] at h; cases h
      | cons p rest =>
        obtain ⟨k0, v0⟩ := p
        rw [hc] at h
        simp only [Option.some.injEq] at h
        subst h
        have habs1 : lookup key c.cache = none := by
          cases h3 : lookup key c.cache
          · rfl
          · rw [h3] at habs; cases habs
        rw [hc] at habs1
        simp only [lookup_cons] at habs1
        by_cases h4 : k0 = key
        · rw [if_pos h4] at habs1; cases habs1
        · rw [if_neg h4] at habs1
          simp only
          rw [moveToEnd_setKey_of_none habs1]
          rw [hc] at hlen
          simp only [List.length_append, List.length_singleton, List.length_cons,
            List.length_nil] at hlen ⊢
          exact ⟨trivial, by push_cast at hlen ⊢; omega⟩
    · rw [if_neg hg] at h
      simp only [Option.some.injEq] at h
      subst h
      refine ⟨rfl, ?_⟩
      simp only
      cases h1 : lookup key c.cache with
      | some w =>
        have := length_moveToEnd_setKey_of_some h1 v
        calc ((moveToEnd key (setKey key v c.cache)).length : Int)
            ≤ (c.cache.length : Int) := by exact_mod_cast this
          _ ≤ c.max_size := hlen
      | none =>
        have hlt : (c.cache.length : Int) < c.max_size := by
          by_contra hge
          exact hg ⟨by rw [h1]; rfl, le_of_not_lt hge⟩
        rw [moveToEnd_setKey_of_none h1]
        simp only [List.length_append, List.length_singleton]
        push_cast
        omega
  | invalidate key =>
    simp only [applyOp, Option.some.injEq] at h
    subst h
    cases key with
    | none =>
      simp only [LRUCache.invalidate]
      exact ⟨trivial, by simp; omega⟩
    | some k =>
      by_cases h1 : k = ""
      · simp only [LRUCache.invalidate, if_pos h1]
        exact ⟨trivial, by simp; omega⟩
      · simp only [LRUCache.invalidate, if_neg h1]
        refine ⟨trivial, le_trans ?_ hlen⟩
        exact_mod_cast length_eraseKey_le k c.cache

/-- The capacity bound is preserved by any completed sequence of operations. -/
theorem LRUCache.runOps_inv {β : Type} :
    ∀ (ops : List (CacheOp β)) (c c1 : LRUCache β), 0 < c.max_size →
      (c.cache.length : Int) ≤ c.max_size → c.runOps ops = some c1 →
      c1.max_size = c.max_size ∧ (c1.cache.length : Int) ≤ c.max_size := by
  intro ops
  induction ops with
  | nil =>
    intro c c1 _ hlen h
    simp only [runOps, Option.some.injEq] at h
    subst h
    exact ⟨rfl, hlen⟩
  | cons op rest ih =>
    intro c c1 hC hlen h
    simp only [runOps] at h
    cases h2 : c.applyOp op with
    | none => rw [h2] at h; cases h
    | some cmid =>
      rw [h2] at h
      obtain ⟨hmax, hlen2⟩ := LRUCache.applyOp_inv hC hlen h2
      obtain ⟨hmax2, hlen3⟩ := ih cmid c1 (hmax ▸ hC) (hmax ▸ hlen2) h
      exact ⟨hmax2.trans hmax, hmax ▸ hlen3⟩

theorem LRUCache.runOps_append {β : Type} (l1 l2 : List (CacheOp β)) :
    ∀ (c : LRUCache β), c.runOps (l1 ++ l2) = (c.runOps l1).bind (fun c1 => c1.runOps l2) := by
  induction l1 with
  | nil => intro c; rfl
  | cons op rest ih =>
    intro c
    simp only [List.cons_append, runOps]
    cases c.applyOp op with
    | none => rfl
    | some c1 => exact ih c1

/-- Inserting a list of fresh, pairwise-distinct keys into a cache with
enough free room appends them (with their timestamps) in order. -/
theorem LRUCache.runOps_sets_fresh {β : Type} (now : ℚ) (vals : String → β) :
    ∀ (ks : List String) (c : LRUCache β),
      ks.Nodup →
      (∀ k ∈ ks, lookup k c.cache = none) →
      (∀ k ∈ ks, lookup k c.timestamps = none) →
      ((c.cache.length : Int) + ks.length ≤ c.max_size) →
      c.runOps (ks.map (fun k => CacheOp.set now k (some (vals k)))) =
        some { c with cache := c.cache ++ ks.map (fun k => (k, some (vals k))),
                      timestamps := c.timestamps ++ ks.map (fun k => (k, now)) } := by
  intro ks
  induction ks with
  | nil =>
    intro c _ _ _ _
    simp [runOps]
  | cons k rest ih =>
    intro c hnd hfc hft hroom
    have hkc : lookup k c.cache = none := hfc k (List.mem_cons_self k rest)
    have hkt : lookup k c.timestamps = none := hft k (List.mem_cons_self k rest)
    have hlt : (c.cache.length : Int) < c.max_size := by
      simp only [List.length_cons] at hroom
      push_cast at hroom
      omega
    have hguard : ¬ ((lookup k c.cache).isNone ∧ (c.cache.length : Int) ≥ c.max_size) := by
      intro hg
      exact absurd hg.2 (not_le_of_lt hlt)
    have hstep : c.applyOp (CacheOp.set now k (some (vals k))) =
        some { c with cache := c.cache ++ [(k, some (vals k))],
                      timestamps := c.timestamps ++ [(k, now)] } := by
      simp only [applyOp]
      rw [LRUCache.set, if_neg hguard, moveToEnd_setKey_of_none hkc, setKey_of_lookup_none hkt]
    simp only [List.map_cons, runOps, hstep]
    have hnd2 : rest.Nodup := (List.nodup_cons.mp hnd).2
    have hknr : k ∉ rest := (List.nodup_cons.mp hnd).1
    have hfc2 : ∀ k1 ∈ rest, lookup k1 (c.cache ++ [(k, some (vals k))]) = none := by
      intro k1 hk1
      rw [lookup_append_of_none (hfc k1 (List.mem_cons_of_mem k hk1))]
      have : k ≠ k1 := fun e => hknr (e ▸ hk1)
      simp [lookup, this]
    have hft2 : ∀ k1 ∈ rest, lookup k1 (c.timestamps ++ [(k, now)]) = none := by
      intro k1 hk1
      rw [lookup_append_of_none (hft k1 (List.mem_cons_of_mem k hk1))]
      have : k ≠ k1 := fun e => hknr (e ▸ hk1)
      simp [lookup, this]
    have hroom2 : (((c.cache ++ [(k, some (vals k))]).length : Int) + rest.length
        ≤ c.max_size) := by
      simp only [List.length_append, List.length_cons, List.length_nil] at hroom ⊢
      push_cast at hroom ⊢
      omega
    have := ih { c with cache := c.cache ++ [(k, some (vals k))],
                        timestamps := c.timestamps ++ [(k, now)] } hnd2 hfc2 hft2 hroom2
    rw [this]
    simp [List.append_assoc]

/-- Claim C1: for every LRUCache with max_size C > 0, (1) after any sequence
of get/set/invalidate operations, len(cache) ≤ C holds once each set
completes; (2) when a new key is inserted at capacity, exactly the
least-recently-used entry (the front of the access-ordered dict) is evicted
and the rest are kept in order; (3) inserting C+1 distinct keys with no
intervening get leaves the first-inserted key a miss and the other C keys
hits. -/
theorem lru_capacity_invariant_and_eviction {β : Type} (C : Int) (ttl now : ℚ)
    (vals : String → β) (hC : 0 < C) :
    (∀ (ops : List (CacheOp β)) (c1 : LRUCache β),
        (LRUCache.init β C ttl).runOps ops = some c1 → (c1.cache.length : Int) ≤ C)
    ∧ (∀ (c : LRUCache β) (now1 : ℚ) (key : String) (v : Option β)
        (k0 : String) (v0 : Option β) (rest : List (String × Option β)),
        lookup key c.cache = none → (c.cache.length : Int) ≥ c.max_size →
        c.cache = (k0, v0) :: rest →
        (c.set now1 key v).map LRUCache.cache = some (rest ++ [(key, v)]))
    ∧ (∀ (k0 : String) (kt : List String) (k : String),
        (k0 :: kt).Nodup → ((k0 :: kt).length : Int) = C + 1 → k ∈ kt →
        (LRUCache.init β C ttl).runOps
            ((k0 :: kt).map (fun k1 => CacheOp.set now k1 (some (vals k1)))) =
          some { max_size := C, ttl := ttl,
                 cache := kt.map (fun k1 => (k1, some (vals k1))),
                 timestamps := kt.map (fun k1 => (k1, now)),
                 hits := 0, misses := 0 }
          ∧ (({ max_size := C, ttl := ttl,
                cache := kt.map (fun k1 => (k1, some (vals k1))),
                timestamps := kt.map (fun k1 => (k1, now)),
                hits := 0, misses := 0 } : LRUCache β).get now k0).1 = none
          ∧ (({ max_size := C, ttl := ttl,
                cache := kt.map (fun k1 => (k1, some (vals k1))),
                timestamps := kt.map (fun k1 => (k1, now)),
                hits := 0, misses := 0 } : LRUCache β).get now k).1 = some (vals k)) := by
  refine ⟨?_, ?_, ?_⟩
  · intro ops c1 h
    have h0 : ((LRUCache.init β C ttl).cache.length : Int) ≤ (LRUCache.init β C ttl).max_size := by
      simp [LRUCache.init]
      omega
    exact (LRUCache.runOps_inv ops _ c1 hC h0 h).2
  · intro c now1 key v k0 v0 rest habs hfull hc
    rw [LRUCache.set, if_pos ⟨by rw [habs]; rfl, hfull⟩, hc]
    rw [hc] at habs
    simp only [lookup_cons] at habs
    by_cases h4 : k0 = key
    · rw [if_pos h4] at habs; cases habs
    · rw [if_neg h4] at habs
      simp only [Option.map_some]
      rw [moveToEnd_setKey_of_none habs]
      rfl
  · intro k0 kt k hnd hlen hkmem
    obtain ⟨hk0, hktnd⟩ := List.nodup_cons.mp hnd
    rcases kt.eq_nil_or_concat with hnil | ⟨mid, kl, hconcat⟩
    · subst hnil
      simp at hlen
      omega
    rw [List.concat_eq_append] at hconcat
    subst hconcat
    obtain ⟨hmidnd, _, hdisj⟩ := List.nodup_append.mp hktnd
    have hklmid : kl ∉ mid := fun h => (hdisj h) (List.mem_singleton_self kl)
    have hk0mid : k0 ∉ mid := fun h => hk0 (List.mem_append_left _ h)
    have hk0kl : k0 ≠ kl := by
      intro e
      apply hk0
      rw [e]
      exact List.mem_append_right _ (List.mem_singleton_self kl)
    have hnd1 : (k0 :: mid).Nodup := List.nodup_cons.mpr ⟨hk0mid, hmidnd⟩
    have hlen1 : (mid.length : Int) + 1 = C := by
      simp only [List.length_cons, List.length_append, List.length_singleton,
        List.length_nil] at hlen
      push_cast at hlen
      omega
    have hrun1 := LRUCache.runOps_sets_fresh now vals (k0 :: mid) (LRUCache.init β C ttl)
      hnd1 (by intro k _; rfl) (by intro k _; rfl)
      (by simp only [LRUCache.init, List.length_nil, List.length_cons]; push_cast; omega)
    have hrun1a : (LRUCache.init β C ttl).runOps
        ((k0 :: mid).map (fun k => CacheOp.set now k (some (vals k)))) =
        some { max_size := C, ttl := ttl,
               cache := (k0 :: mid).map (fun k => (k, some (vals k))),
               timestamps := (k0 :: mid).map (fun k => (k, now)),
               hits := 0, misses := 0 } := by
      rw [hrun1]
      simp [LRUCache.init]
    have hklcache : lookup kl ((k0 :: mid).map (fun k => (k, some (vals k)))) = none := by
      apply lookup_map_pair_of_not_mem
      intro h
      rcases List.mem_cons.mp h with h1 | h1
      · exact hk0kl h1.symm
      · exact hklmid h1
    have hklmidc : lookup kl (mid.map (fun k => (k, some (vals k)))) = none :=
      lookup_map_pair_of_not_mem _ hklmid
    have hklmidt : lookup kl (mid.map (fun k => (k, now))) = none :=
      lookup_map_pair_of_not_mem _ hklmid
    have hk0midt : lookup k0 (mid.map (fun k => (k, now))) = none :=
      lookup_map_pair_of_not_mem _ hk0mid
    have hstep : LRUCache.applyOp
        { max_size := C, ttl := ttl,
          cache := (k0 :: mid).map (fun k => (k, some (vals k))),
          timestamps := (k0 :: mid).map (fun k => (k, now)),
          hits := 0, misses := 0 }
        (CacheOp.set now kl (some (vals kl))) =
        some { max_size := C, ttl := ttl,
               cache := (mid ++ [kl]).map (fun k => (k, some (vals k))),
               timestamps := (mid ++ [kl]).map (fun k => (k, now)),
               hits := 0, misses := 0 } := by
      simp only [LRUCache.applyOp]
      rw [LRUCache.set]
      rw [if_pos ?hguard]
      case hguard =>
        constructor
        · rw [hklcache]; rfl
        · simp only [List.length_map, List.length_cons]
          push_cast
          omega
      simp only [List.map_cons]
      rw [moveToEnd_setKey_of_none hklmidc]
      rw [eraseKey, if_pos rfl, eraseKey_of_lookup_none hk0midt]
      rw [setKey_of_lookup_none hklmidt]
      simp
    refine ⟨?_, ?_, ?_⟩
    · have hsplit : (k0 :: (mid ++ [kl])).map (fun k1 => CacheOp.set now k1 (some (vals k1)))
          = (k0 :: mid).map (fun k1 => CacheOp.set now k1 (some (vals k1)))
            ++ [CacheOp.set now kl (some (vals kl))] := by
        simp
      rw [hsplit, LRUCache.runOps_append, hrun1a]
      simp only [Option.some_bind, LRUCache.runOps, hstep]
    · have hlk : lookup k0 ((mid ++ [kl]).map (fun k1 => (k1, some (vals k1)))) = none := by
        apply lookup_map_pair_of_not_mem
        intro h
        rcases List.mem_append.mp h with h1 | h1
        · exact hk0mid h1
        · exact hk0kl (List.mem_singleton.mp h1)
      simp only [LRUCache.get, hlk]
    · have hkc : lookup k ((mid ++ [kl]).map (fun k1 => (k1, some (vals k1))))
          = some (some (vals k)) := lookup_map_pair_of_mem _ hkmem
      have hkts : lookup k ((mid ++ [kl]).map (fun k1 => (k1, now))) = some now :=
        lookup_map_pair_of_mem _ hkmem
      simp only [LRUCache.get, hkc, hkts]
      rw [if_neg ?hcond]
      case hcond =>
        intro hcc
        rcases hcc with ⟨h1, h2⟩
        simp only [Option.getD_some, sub_self] at h2
        exact absurd h1 (not_lt_of_gt h2)

/-- Witness for C1 at C = 2, ttl = 0, keys a, b, c. -/
theorem lru_capacity_invariant_and_eviction_witness :
    (LRUCache.init Nat 2 0).runOps
        (["a", "b", "c"].map (fun k1 => CacheOp.set 0 k1 (some 5)))
      = some { max_size := 2, ttl := 0,
               cache := ["b", "c"].map (fun k1 => (k1, some 5)),
               timestamps := ["b", "c"].map (fun k1 => (k1, 0)),
               hits := 0, misses := 0 }
    ∧ (({ max_size := 2, ttl := 0,
          cache := ["b", "c"].map (fun k1 => (k1, some 5)),
          timestamps := ["b", "c"].map (fun k1 => (k1, 0)),
          hits := 0, misses := 0 } : LRUCache Nat).get 0 "a").1 = none
    ∧ (({ max_size := 2, ttl := 0,
          cache := ["b", "c"].map (fun k1 => (k1, some 5)),
          timestamps := ["b", "c"].map (fun k1 => (k1, 0)),
          hits := 0, misses := 0 } : LRUCache Nat).get 0 "b").1 = some 5 :=
  (lru_capacity_invariant_and_eviction 2 0 0 (fun _ => 5) (by decide)).2.2
    "a" ["b", "c"] "b" (by decide) (by decide) (by decide)

/-! TTLCache (cache_manager.py, class TTLCache): a plain dict plus per-key
absolute expiry times.  The background cleanup thread is an optimization the
spec itself excludes from correctness; get self-checks expiry. -/

/-- Python expression (ttl or self.default_ttl): both None and 0 are falsy,
so an explicit ttl of 0 also falls back to the default. -/
def pyOrTTL (ttl : Option ℚ) (d : ℚ) : ℚ :=
  match ttl with
  | some t => if t = 0 then d else t
  | none => d

/-- Python substring test (pattern in key). -/
def isSubstrOf (p k : String) : Bool :=
  decide (p.toList <:+: k.toList)

structure TTLCache (β : Type) where
  default_ttl : ℚ
  cache : List (String × Option β)
  expiry_times : List (String × ℚ)

/-- TTLCache.__init__ (the cleanup thread is not part of the state). -/
def TTLCache.init (β : Type) (default_ttl : ℚ) : TTLCache β :=
  { default_ttl := default_ttl, cache := [], expiry_times := [] }

/-- TTLCache.get: miss on absent key; purge and miss once now is strictly
past the stored expiry time; otherwise return the stored value. -/
def TTLCache.get {β : Type} (c : TTLCache β) (now : ℚ) (key : String) :
    Option β × TTLCache β :=
  match lookup key c.cache with
  | none => (none, c)
  | some v =>
    if now > (lookup key c.expiry_times).getD 0 then
      (none, { c with cache := eraseKey key c.cache,
                      expiry_times := eraseKey key c.expiry_times })
    else (v, c)

/-- TTLCache.set: store the value with expiry now + (ttl or default_ttl). -/
def TTLCache.set {β : Type} (c : TTLCache β) (now : ℚ) (key : String) (value : Option β)
    (ttl : Option ℚ) : TTLCache β :=
  { c with cache := setKey key value c.cache,
           expiry_times := setKey key (now + pyOrTTL ttl c.default_ttl) c.expiry_times }

/-- TTLCache.invalidate: a truthy pattern removes every key containing it as
a substring; None or the empty string clears the whole cache. -/
def TTLCache.invalidate {β : Type} (c : TTLCache β) (pattern : Option String) : TTLCache β :=
  match pattern with
  | some p =>
    if p = "" then { c with cache := [], expiry_times := [] }
    else { c with cache := c.cache.filter (fun q => !(isSubstrOf p q.1)),
                  expiry_times := c.expiry_times.filter (fun q => !(isSubstrOf p q.1)) }
  | none => { c with cache := [], expiry_times := [] }

/-! MultiLayerCache (cache_manager.py, class MultiLayerCache), modelled as it
is used by CacheManager: l2_enabled is False there, and every L2 branch of
the Python code only performs filesystem side effects, so the observable
state is the L1 LRUCache. -/

structure MultiLayerCache (β : Type) where
  l1_cache : LRUCache β
  l2_enabled : Bool

/-- MultiLayerCache.__init__ with the L1 cache: LRUCache(max_size=l1_size,
ttl=300). -/
def MultiLayerCache.init (β : Type) (l1_size : Int) (l2_enabled : Bool) : MultiLayerCache β :=
  { l1_cache := LRUCache.init β l1_size 300, l2_enabled := l2_enabled }

/-- MultiLayerCache.get with L2 disabled: exactly the L1 lookup. -/
def MultiLayerCache.get {β : Type} (c : MultiLayerCache β) (now : ℚ) (key : String) :
    Option β × MultiLayerCache β :=
  let r := c.l1_cache.get now key
  (r.1, { c with l1_cache := r.2 })

/-- MultiLayerCache.set with L2 disabled: set in L1. -/
def MultiLayerCache.set {β : Type} (c : MultiLayerCache β) (now : ℚ) (key : String)
    (value : Option β) : Option (MultiLayerCache β) :=
  (c.l1_cache.set now key value).map (fun l1 => { c with l1_cache := l1 })

/-- MultiLayerCache.invalidate: invalidate L1 (L2 file removal is a
filesystem side effect). -/
def MultiLayerCache.invalidate {β : Type} (c : MultiLayerCache β) (key : Option String) :
    MultiLayerCache β :=
  { c with l1_cache := c.l1_cache.invalidate key }

/-! CacheManager (cache_manager.py, class CacheManager): five named tiers. -/

structure CacheManager (β : Type) where
  defaultCache : LRUCache β
  shortCache : TTLCache β
  longCache : LRUCache β
  permanentCache : LRUCache β
  multiCache : MultiLayerCache β

/-- CacheManager.__init__ with its hard-coded tier configuration. -/
def CacheManager.init (β : Type) : CacheManager β :=
  { defaultCache := LRUCache.init β 200 600,
    shortCache := TTLCache.init β 60,
    longCache := LRUCache.init β 100 3600,
    permanentCache := LRUCache.init β 50 0,
    multiCache := MultiLayerCache.init β 100 false }

/-- CacheManager.get: dispatch to the named tier; unknown tiers answer None. -/
def CacheManager.get {β : Type} (m : CacheManager β) (now : ℚ) (key : String)
    (cache_type : String) : Option β × CacheManager β :=
  if cache_type = "default" then
    let r := m.defaultCache.get now key
    (r.1, { m with defaultCache := r.2 })
  else if cache_type = "short" then
    let r := m.shortCache.get now key
    (r.1, { m with shortCache := r.2 })
  else if cache_type = "long" then
    let r := m.longCache.get now key
    (r.1, { m with longCache := r.2 })
  else if cache_type = "permanent" then
    let r := m.permanentCache.get now key
    (r.1, { m with permanentCache := r.2 })
  else if cache_type = "multi" then
    let r := m.multiCache.get now key
    (r.1, { m with multiCache := r.2 })
  else (none, m)

/-- CacheManager.set: dispatch to the named tier; the explicit ttl is passed
through only to the TTLCache tier; unknown tiers are a no-op. -/
def CacheManager.set {β : Type} (m : CacheManager β) (now : ℚ) (key : String)
    (value : Option β) (cache_type : String) (ttl : Option ℚ) : Option (CacheManager β) :=
  if cache_type = "default" then
    (m.defaultCache.set now key value).map (fun c => { m with defaultCache := c })
  else if cache_type = "short" then
    some { m with shortCache := m.shortCache.set now key value ttl }
  else if cache_type = "long" then
    (m.longCache.set now key value).map (fun c => { m with longCache := c })
  else if cache_type = "permanent" then
    (m.permanentCache.set now key value).map (fun c => { m with permanentCache := c })
  else if cache_type = "multi" then
    (m.multiCache.set now key value).map (fun c => { m with multiCache := c })
  else some m

/-- CacheManager.invalidate with cache_type omitted or falsy: fan out to
every tier. -/
def CacheManager.invalidateAll {β : Type} (m : CacheManager β) (key : Option String) :
    CacheManager β :=
  { defaultCache := m.defaultCache.invalidate key,
    shortCache := m.shortCache.invalidate key,
    longCache := m.longCache.invalidate key,
    permanentCache := m.permanentCache.invalidate key,
    multiCache := m.multiCache.invalidate key }

/-- CacheManager.invalidate: a truthy cache_type dispatches to that tier
(unknown names are a no-op); None or the empty string fans out to all. -/
def CacheManager.invalidate {β : Type} (m : CacheManager β) (key : Option String)
    (cache_type : Option String) : CacheManager β :=
  match cache_type with
  | some t =>
    if t = "" then m.invalidateAll key
    else if t = "default" then { m with defaultCache := m.defaultCache.invalidate key }
    else if t = "short" then { m with shortCache := m.shortCache.invalidate key }
    else if t = "long" then { m with longCache := m.longCache.invalidate key }
    else if t = "permanent" then { m with permanentCache := m.permanentCache.invalidate key }
    else if t = "multi" then { m with multiCache := m.multiCache.invalidate key }
    else m
  | none => m.invalidateAll key

/-- Memoization wrapper produced by the cached decorator
(cache_manager.py, cached.decorator.wrapper).  The key derivation (key_func
or the default serialization of the arguments) is abstracted as keyOf.  The
middle Bool records which branch ran: true when the wrapped function was
executed ("Cached result" log line), false on a cache hit ("Cache hit" log
line).  Returns none when the underlying set raises. -/
def cachedWrapper {α β : Type} (m : CacheManager β) (cache_type : String) (ttl : Option ℚ)
    (now : ℚ) (f : α → Option β) (keyOf : α → String) (x : α) :
    Option (Option β × Bool × CacheManager β) :=
  let r := m.get now (keyOf x) cache_type
  match r.1 with
  | some v => some (some v, false, r.2)
  | none =>
    let result := f x
    (r.2.set now (keyOf x) result cache_type ttl).map (fun m2 => (result, true, m2))

/-- Counterexample to claim C2: a TTLCache constructed with ttl 0 does
report time-based misses.  With default_ttl = 0, a set at time 0 stores
expiry 0 (Python: ttl or self.default_ttl evaluates to 0), the key is
present in the store, yet a get at time 1 returns None because of elapsed
time, contradicting the claim that a ttl-0 cache never misses by time. -/
theorem ttlcache_zero_ttl_expires_cx :
    lookup "k" (((TTLCache.init Nat 0).set 0 "k" (some 5) none).cache) = some (some 5)
    ∧ ((((TTLCache.init Nat 0).set 0 "k" (some 5) none).get 1 "k")).1 = none := by
  constructor
  · rfl
  · simp only [TTLCache.get, TTLCache.set, TTLCache.init]
    norm_num [setKey, lookup, pyOrTTL]

/-- Claim C2 as amended: (1) an LRUCache with ttl T > 0 misses and purges on
any get more than T seconds after the entry timestamp; (2) an LRUCache with
ttl = 0 never misses by time: any present entry is returned unchanged no
matter how much time has passed; (3) a TTLCache entry set at time t misses
and is purged on any get more than its effective ttl (Python
ttl or default_ttl) after t — in particular with default_ttl = 0 the entry
expires on any strictly later get. -/
theorem ttl_expiry_behavior {β : Type} :
    (∀ (c : LRUCache β) (now : ℚ) (key : String) (ts : ℚ),
      c.ttl > 0 → lookup key c.timestamps = some ts → now - ts > c.ttl →
      (c.get now key).1 = none ∧ lookup key (c.get now key).2.cache = none)
    ∧ (∀ (c : LRUCache β) (now : ℚ) (key : String) (v : Option β),
      c.ttl = 0 → lookup key c.cache = some v →
      (c.get now key).1 = v ∧ lookup key (c.get now key).2.cache = some v)
    ∧ (∀ (c : TTLCache β) (t now : ℚ) (key : String) (v : Option β) (ttlArg : Option ℚ),
      now - t > pyOrTTL ttlArg c.default_ttl →
      ((c.set t key v ttlArg).get now key).1 = none
        ∧ lookup key ((c.set t key v ttlArg).get now key).2.cache = none) := by
  refine ⟨?_, ?_, ?_⟩
  · intro c now key ts httl hts hold
    cases hc : lookup key c.cache with
    | none =>
      simp [LRUCache.get, hc]
    | some v =>
      have hcond : c.ttl > 0 ∧ now - ((lookup key c.timestamps).getD 0) > c.ttl := by
        rw [hts]
        exact ⟨httl, hold⟩
      simp [LRUCache.get, hc, if_pos hcond]
  · intro c now key v httl hc
    have hcond : ¬ (c.ttl > 0 ∧ now - ((lookup key c.timestamps).getD 0) > c.ttl) := by
      intro hcc
      rw [httl] at hcc
      exact lt_irrefl 0 hcc.1
    simp [LRUCache.get, hc, if_neg hcond, lookup_moveToEnd_self]
  · intro c t now key v ttlArg hold
    have hlv : lookup key (c.set t key v ttlArg).cache = some v := by
      simp only [TTLCache.set]
      exact lookup_setKey_self key v c.cache
    have he : lookup key (c.set t key v ttlArg).expiry_times
        = some (t + pyOrTTL ttlArg c.default_ttl) := by
      simp only [TTLCache.set]
      exact lookup_setKey_self key _ c.expiry_times
    have hcond : now > ((lookup key (c.set t key v ttlArg).expiry_times).getD 0) := by
      rw [he]
      simp only [Option.getD_some]
      linarith
    simp [TTLCache.get, hlv, if_pos hcond]

/-- Witness for the amended C2 at concrete caches and times. -/
theorem ttl_expiry_behavior_witness :
    ((((⟨10, 5, [("a", some 1)], [("a", 0)], 0, 0⟩ : LRUCache Nat).get 6 "a")).1 = none
      ∧ lookup "a" ((⟨10, 5, [("a", some 1)], [("a", 0)], 0, 0⟩ : LRUCache Nat).get 6 "a").2.cache
          = none)
    ∧ ((((⟨10, 0, [("b", some 2)], [("b", 0)], 0, 0⟩ : LRUCache Nat).get 99 "b")).1 = some 2
      ∧ lookup "b" ((⟨10, 0, [("b", some 2)], [("b", 0)], 0, 0⟩ : LRUCache Nat).get 99 "b").2.cache
          = some (some 2))
    ∧ ((((TTLCache.init Nat 7).set 0 "c" (some 3) none).get 8 "c").1 = none
      ∧ lookup "c" (((TTLCache.init Nat 7).set 0 "c" (some 3) none).get 8 "c").2.cache = none) :=
  ⟨(ttl_expiry_behavior (β := Nat)).1 ⟨10, 5, [("a", some 1)], [("a", 0)], 0, 0⟩ 6 "a" 0
      (by norm_num) (by decide) (by norm_num),
   (ttl_expiry_behavior (β := Nat)).2.1 ⟨10, 0, [("b", some 2)], [("b", 0)], 0, 0⟩ 99 "b" (some 2)
      rfl (by decide),
   (ttl_expiry_behavior (β := Nat)).2.2 (TTLCache.init Nat 7) 0 8 "c" (some 3) none
      (by norm_num [pyOrTTL, TTLCache.init])⟩

theorem lookup_filter_key {α : Type} (f : String → Bool) (k : String) :
    ∀ (l : List (String × α)),
      lookup k (l.filter (fun q => f q.1)) = if f k then lookup k l else none := by
  intro l
  induction l with
  | nil => simp
  | cons p rest ih =>
    obtain ⟨k1, v⟩ := p
    by_cases h1 : k1 = k
    · subst h1
      cases h2 : f k1 <;> simp [List.filter_cons, h2, lookup, ih]
    · cases h2 : f k1 <;> simp [List.filter_cons, h2, lookup, h1, ih]

/-- Counterexample to claim C7: TTLCache.invalidate matches by substring,
not by key equality.  Invalidating "a" on a TTLCache holding only the key
"ab" removes the entry for "ab", although "ab" differs from "a". -/
theorem ttlcache_invalidate_substring_cx :
    lookup "ab" ((⟨60, [("ab", some 1)], [("ab", 1000)]⟩ : TTLCache Nat).invalidate
        (some "a")).cache = none
    ∧ ("ab" : String) ≠ "a"
    ∧ lookup "ab" (⟨60, [("ab", some 1)], [("ab", 1000)]⟩ : TTLCache Nat).cache
        = some (some 1) := by
  refine ⟨?_, by decide, rfl⟩
  simp only [TTLCache.invalidate]
  rw [if_neg (by decide)]
  show lookup "ab" (List.filter (fun q => !isSubstrOf "a" q.1) [("ab", some 1)]) = none
  rw [lookup_filter_key (fun s => !isSubstrOf "a" s)]
  rw [if_neg (by decide)]

/-- Claim C7 as amended: (1) LRUCache.invalidate with a non-empty key
removes exactly that entry and leaves every other key's binding unchanged;
(2) TTLCache.invalidate with a non-empty pattern removes exactly the
entries whose key contains the pattern as a substring (not only the equal
key); (3) invalidate with no key clears the whole cache; (4) when
CacheManager.invalidate is called with the tier omitted, the operation is
applied to every tier. -/
theorem invalidate_frame_behavior {β : Type} (k k1 : String) (p : String)
    (c : LRUCache β) (ct : TTLCache β) (m : CacheManager β) (key : Option String)
    (hk : k ≠ "") (hp : p ≠ "") (hne : k1 ≠ k) :
    (lookup k (c.invalidate (some k)).cache = none
      ∧ lookup k1 (c.invalidate (some k)).cache = lookup k1 c.cache
      ∧ lookup k1 (c.invalidate (some k)).timestamps = lookup k1 c.timestamps)
    ∧ (lookup k1 (ct.invalidate (some p)).cache
        = if isSubstrOf p k1 then none else lookup k1 ct.cache)
    ∧ ((c.invalidate none).cache = [] ∧ (ct.invalidate none).cache = [])
    ∧ ((m.invalidate key none).defaultCache = m.defaultCache.invalidate key
      ∧ (m.invalidate key none).shortCache = m.shortCache.invalidate key
      ∧ (m.invalidate key none).longCache = m.longCache.invalidate key
      ∧ (m.invalidate key none).permanentCache = m.permanentCache.invalidate key
      ∧ (m.invalidate key none).multiCache = m.multiCache.invalidate key) := by
  refine ⟨⟨?_, ?_, ?_⟩, ?_, ⟨rfl, rfl⟩, rfl, rfl, rfl, rfl, rfl⟩
  · simp only [LRUCache.invalidate, if_neg hk]
    exact lookup_eraseKey_self k c.cache
  · simp only [LRUCache.invalidate, if_neg hk]
    exact lookup_eraseKey_ne hne c.cache
  · simp only [LRUCache.invalidate, if_neg hk]
    exact lookup_eraseKey_ne hne c.timestamps
  · simp only [TTLCache.invalidate, if_neg hp]
    show lookup k1 (List.filter (fun q => !isSubstrOf p q.1) ct.cache) = _
    rw [lookup_filter_key (fun s => !isSubstrOf p s)]
    cases h : isSubstrOf p k1 <;> simp [h]

/-- Witness for the amended C7 at concrete caches, keys and tiers. -/
theorem invalidate_frame_behavior_witness :
    (lookup "x" ((⟨3, 0, [("x", some 1), ("y", some 2)], [("x", 0), ("y", 0)], 0, 0⟩ :
          LRUCache Nat).invalidate (some "x")).cache = none
      ∧ lookup "y" ((⟨3, 0, [("x", some 1), ("y", some 2)], [("x", 0), ("y", 0)], 0, 0⟩ :
          LRUCache Nat).invalidate (some "x")).cache
        = lookup "y" (⟨3, 0, [("x", some 1), ("y", some 2)], [("x", 0), ("y", 0)], 0, 0⟩ :
          LRUCache Nat).cache
      ∧ lookup "y" ((⟨3, 0, [("x", some 1), ("y", some 2)], [("x", 0), ("y", 0)], 0, 0⟩ :
          LRUCache Nat).invalidate (some "x")).timestamps
        = lookup "y" (⟨3, 0, [("x", some 1), ("y", some 2)], [("x", 0), ("y", 0)], 0, 0⟩ :
          LRUCache Nat).timestamps)
    ∧ (lookup "y" ((⟨60, [("ab", some 1)], [("ab", 5)]⟩ : TTLCache Nat).invalidate
          (some "x")).cache
        = if isSubstrOf "x" "y" then none
          else lookup "y" (⟨60, [("ab", some 1)], [("ab", 5)]⟩ : TTLCache Nat).cache)
    ∧ (((⟨3, 0, [("x", some 1), ("y", some 2)], [("x", 0), ("y", 0)], 0, 0⟩ :
          LRUCache Nat).invalidate none).cache = []
      ∧ ((⟨60, [("ab", some 1)], [("ab", 5)]⟩ : TTLCache Nat).invalidate none).cache = [])
    ∧ (((CacheManager.init Nat).invalidate (some "x") none).defaultCache
        = (CacheManager.init Nat).defaultCache.invalidate (some "x")
      ∧ ((CacheManager.init Nat).invalidate (some "x") none).shortCache
        = (CacheManager.init Nat).shortCache.invalidate (some "x")
      ∧ ((CacheManager.init Nat).invalidate (some "x") none).longCache
        = (CacheManager.init Nat).longCache.invalidate (some "x")
      ∧ ((CacheManager.init Nat).invalidate (some "x") none).permanentCache
        = (CacheManager.init Nat).permanentCache.invalidate (some "x")
      ∧ ((CacheManager.init Nat).invalidate (some "x") none).multiCache
        = (CacheManager.init Nat).multiCache.invalidate (some "x")) :=
  invalidate_frame_behavior "x" "y" "x"
    (⟨3, 0, [("x", some 1), ("y", some 2)], [("x", 0), ("y", 0)], 0, 0⟩ : LRUCache Nat)
    (⟨60, [("ab", some 1)], [("ab", 5)]⟩ : TTLCache Nat)
    (CacheManager.init Nat) (some "x") (by decide) (by decide) (by decide)

/-- Observable part of a wrapper call: the returned value and whether the
wrapped function was executed. -/
def wrapperObs {β : Type} (r : Option (Option β × Bool × CacheManager β)) :
    Option (Option β × Bool) :=
  r.map (fun q => (q.1, q.2.1))

/-- Claim C10: a stored None is indistinguishable from absence at the public
get interface (both return None), and a function whose result is None is
re-executed by the cached wrapper on every repeat call: the first call on a
fresh manager executes f and stores None, and the second call with the same
key misses again and re-executes f. -/
theorem cached_none_treated_as_miss {α β : Type} (c c2 : LRUCache β) (now now2 : ℚ)
    (k : String) (f : α → Option β) (keyOf : α → String) (x : α)
    (hstore : lookup k c.cache = some none) (habs : lookup k c2.cache = none)
    (hf : f x = none) :
    (c.get now k).1 = none
    ∧ (c2.get now k).1 = none
    ∧ cachedWrapper (CacheManager.init β) "default" none now f keyOf x
        = some (none, true,
            { defaultCache := ⟨200, 600, [(keyOf x, none)], [(keyOf x, now)], 0, 1⟩,
              shortCache := TTLCache.init β 60,
              longCache := LRUCache.init β 100 3600,
              permanentCache := LRUCache.init β 50 0,
              multiCache := MultiLayerCache.init β 100 false })
    ∧ wrapperObs (cachedWrapper
          ({ defaultCache := ⟨200, 600, [(keyOf x, none)], [(keyOf x, now)], 0, 1⟩,
             shortCache := TTLCache.init β 60,
             longCache := LRUCache.init β 100 3600,
             permanentCache := LRUCache.init β 50 0,
             multiCache := MultiLayerCache.init β 100 false } : CacheManager β)
          "default" none now2 f keyOf x) = some (none, true) := by
  refine ⟨?_, ?_, ?_, ?_⟩
  · cases hv : lookup k c.cache with
    | none => rw [hstore] at hv; cases hv
    | some v =>
      rw [hstore] at hv
      cases hv
      by_cases hcond : c.ttl > 0 ∧ now - ((lookup k c.timestamps).getD 0) > c.ttl
      · simp [LRUCache.get, hstore, if_pos hcond]
      · simp [LRUCache.get, hstore, if_neg hcond]
  · simp [LRUCache.get, habs]
  · simp only [cachedWrapper, CacheManager.get, CacheManager.init, LRUCache.init,
      LRUCache.get, lookup_nil, if_pos rfl]
    simp only [hf, CacheManager.set, LRUCache.set, if_pos rfl]
    norm_num [setKey, moveToEnd, lookup, eraseKey]
  · simp only [cachedWrapper, CacheManager.get, if_pos rfl]
    have hlk : lookup (keyOf x) [(keyOf x, (none : Option β))] = some none := by
      simp [lookup]
    by_cases hcond : (600 : ℚ) > 0 ∧ now2 - ((lookup (keyOf x)
      [(keyOf x, now)]).getD 0) > 600
    · simp only [LRUCache.get, hlk, if_pos hcond]
      simp only [hf, CacheManager.set, LRUCache.set, if_pos rfl]
      simp [wrapperObs, setKey, moveToEnd, lookup, eraseKey]
    · simp only [LRUCache.get, hlk, if_neg hcond]
      simp only [hf, CacheManager.set, LRUCache.set, if_pos rfl]
      simp [wrapperObs, setKey, moveToEnd, lookup, eraseKey]

/-- Witness for C10 at concrete caches, a constant-None function and key. -/
theorem cached_none_treated_as_miss_witness :
    ((⟨4, 0, [("k", none)], [("k", 0)], 0, 0⟩ : LRUCache Nat).get 0 "k").1 = none
    ∧ ((LRUCache.init Nat 4 0).get 0 "k").1 = none
    ∧ cachedWrapper (CacheManager.init Nat) "default" none 0
        (fun _ : Nat => none) (fun _ => "k") 7
        = some (none, true,
            { defaultCache := ⟨200, 600, [("k", none)], [("k", 0)], 0, 1⟩,
              shortCache := TTLCache.init Nat 60,
              longCache := LRUCache.init Nat 100 3600,
              permanentCache := LRUCache.init Nat 50 0,
              multiCache := MultiLayerCache.init Nat 100 false })
    ∧ wrapperObs (cachedWrapper
          ({ defaultCache := ⟨200, 600, [("k", none)], [("k", 0)], 0, 1⟩,
             shortCache := TTLCache.init Nat 60,
             longCache := LRUCache.init Nat 100 3600,
             permanentCache := LRUCache.init Nat 50 0,
             multiCache := MultiLayerCache.init Nat 100 false } : CacheManager Nat)
          "default" none 2 (fun _ : Nat => none) (fun _ => "k") 7) = some (none, true) :=
  cached_none_treated_as_miss (⟨4, 0, [("k", none)], [("k", 0)], 0, 0⟩ : LRUCache Nat)
    (LRUCache.init Nat 4 0) 0 2 "k" (fun _ : Nat => none) (fun _ => "k") 7
    (by decide) rfl rfl

/-! TokenBucketRateLimiter (rate_limiter.py).  capacity and the token count
are Python numbers (int seeded, float after refill), modelled over ℚ. -/

structure TokenBucketRateLimiter where
  capacity : ℚ
  refill_rate : ℚ
  tokens : ℚ
  last_refill : ℚ

/-- TokenBucketRateLimiter.__init__: the bucket starts full; no validation
of capacity or refill_rate. -/
def TokenBucketRateLimiter.init (capacity refill_rate now : ℚ) : TokenBucketRateLimiter :=
  { capacity := capacity, refill_rate := refill_rate, tokens := capacity, last_refill := now }

/-- Token count after the lazy refill at the top of consume:
min(capacity, tokens + elapsed * refill_rate). -/
def TokenBucketRateLimiter.refillAmount (b : TokenBucketRateLimiter) (now : ℚ) : ℚ :=
  min b.capacity (b.tokens + (now - b.last_refill) * b.refill_rate)

/-- TokenBucketRateLimiter.consume: refill lazily, succeed iff the refilled
count covers the request, otherwise report the wait time
(tokens_needed / refill_rate).  Returns none on the path where Python
raises ZeroDivisionError: the failure branch with refill_rate = 0. -/
def TokenBucketRateLimiter.consume (b : TokenBucketRateLimiter) (now n : ℚ) :
    Option (Bool × ℚ × TokenBucketRateLimiter) :=
  let tokens1 := b.refillAmount now
  if tokens1 ≥ n then
    some (true, 0, { b with tokens := tokens1 - n, last_refill := now })
  else if b.refill_rate = 0 then none
  else
    some (false, (n - tokens1) / b.refill_rate, { b with tokens := tokens1, last_refill := now })

/-- Claim C3: with capacity > 0 and refill_rate > 0, 0 ≤ tokens ≤ capacity
is preserved by every consume call; consume(n) succeeds iff the refilled
token count covers n, and on failure returns
wait = (n - tokens) / refill_rate; and with capacity 10 and refill_rate 1,
draining the bucket and waiting 10 seconds allows exactly one more full
consumption of 10 tokens, not more. -/
theorem token_bucket_invariant (b : TokenBucketRateLimiter) (now n : ℚ)
    (hcap : 0 < b.capacity) (hrate : 0 < b.refill_rate) (htok0 : 0 ≤ b.tokens)
    (htok1 : b.tokens ≤ b.capacity) (helapsed : b.last_refill ≤ now) (hn : 0 ≤ n) :
    (0 ≤ b.refillAmount now ∧ b.refillAmount now ≤ b.capacity)
    ∧ (n ≤ b.refillAmount now →
        b.consume now n
          = some (true, 0, ⟨b.capacity, b.refill_rate, b.refillAmount now - n, now⟩)
        ∧ 0 ≤ b.refillAmount now - n ∧ b.refillAmount now - n ≤ b.capacity)
    ∧ (¬ n ≤ b.refillAmount now →
        b.consume now n = some (false, (n - b.refillAmount now) / b.refill_rate,
          ⟨b.capacity, b.refill_rate, b.refillAmount now, now⟩))
    ∧ ((TokenBucketRateLimiter.init 10 1 0).consume 0 10 = some (true, 0, ⟨10, 1, 0, 0⟩)
      ∧ (⟨10, 1, 0, 0⟩ : TokenBucketRateLimiter).consume 10 10 = some (true, 0, ⟨10, 1, 0, 10⟩)
      ∧ (⟨10, 1, 0, 10⟩ : TokenBucketRateLimiter).consume 10 10
          = some (false, 10, ⟨10, 1, 0, 10⟩)) := by
  have hrefill0 : 0 ≤ b.refillAmount now := by
    unfold TokenBucketRateLimiter.refillAmount
    have h1 : 0 ≤ (now - b.last_refill) * b.refill_rate :=
      mul_nonneg (by linarith) (le_of_lt hrate)
    have : (0 : ℚ) ≤ b.tokens + (now - b.last_refill) * b.refill_rate := by linarith
    exact le_min (le_of_lt hcap) this
  have hrefill1 : b.refillAmount now ≤ b.capacity := min_le_left _ _
  refine ⟨⟨hrefill0, hrefill1⟩, ?_, ?_, ?_, ?_, ?_⟩
  · intro hok
    refine ⟨?_, by linarith, by linarith⟩
    unfold TokenBucketRateLimiter.consume
    rw [if_pos (by linarith)]
  · intro hfail
    unfold TokenBucketRateLimiter.consume
    rw [if_neg (by simpa using hfail), if_neg (by exact ne_of_gt hrate)]
  · norm_num [TokenBucketRateLimiter.consume, TokenBucketRateLimiter.refillAmount,
      TokenBucketRateLimiter.init]
  · norm_num [TokenBucketRateLimiter.consume, TokenBucketRateLimiter.refillAmount]
  · norm_num [TokenBucketRateLimiter.consume, TokenBucketRateLimiter.refillAmount]

/-- Witness for C3: a concrete bucket running the conservation scenario. -/
theorem token_bucket_invariant_witness :
    (TokenBucketRateLimiter.init 10 1 0).consume 0 10 = some (true, 0, ⟨10, 1, 0, 0⟩)
    ∧ (⟨10, 1, 0, 0⟩ : TokenBucketRateLimiter).consume 10 10 = some (true, 0, ⟨10, 1, 0, 10⟩)
    ∧ (⟨10, 1, 0, 10⟩ : TokenBucketRateLimiter).consume 10 10
        = some (false, 10, ⟨10, 1, 0, 10⟩) :=
  (token_bucket_invariant (TokenBucketRateLimiter.init 10 1 0) 0 10
    (by norm_num [TokenBucketRateLimiter.init]) (by norm_num [TokenBucketRateLimiter.init])
    (by norm_num [TokenBucketRateLimiter.init])
    (by norm_num [TokenBucketRateLimiter.init])
    (by norm_num [TokenBucketRateLimiter.init]) (by norm_num)).2.2.2

/-! SlidingWindowRateLimiter (rate_limiter.py).  The deque of request
timestamps is a list, oldest first. -/

structure SlidingWindowRateLimiter where
  max_requests : Int
  window_seconds : ℚ
  requests : List ℚ

/-- Front-of-deque pruning loop of is_allowed:
while requests and requests[0] < now - window: popleft(). -/
def dropOld (now window : ℚ) : List ℚ → List ℚ
  | [] => []
  | t :: rest => if t < now - window then dropOld now window rest else t :: rest

/-- SlidingWindowRateLimiter.is_allowed: prune stale timestamps from the
front, allow iff the retained count is below max_requests and record the
request, else report the wait until the oldest retained timestamp exits the
window.  Returns none on the path where Python raises IndexError:
requests[0] on an empty deque, reachable only when max_requests ≤ 0. -/
def SlidingWindowRateLimiter.is_allowed (s : SlidingWindowRateLimiter) (now : ℚ) :
    Option (Bool × ℚ × SlidingWindowRateLimiter) :=
  let reqs := dropOld now s.window_seconds s.requests
  if (reqs.length : Int) < s.max_requests then
    some (true, 0, { s with requests := reqs ++ [now] })
  else
    match reqs with
    | [] => none
    | t0 :: rest =>
      some (false, s.window_seconds - (now - t0), { s with requests := t0 :: rest })

theorem mem_dropOld {now window : ℚ} :
    ∀ {l : List ℚ} {t : ℚ}, t ∈ dropOld now window l → t ∈ l := by
  intro l
  induction l with
  | nil => intro t h; exact absurd h (List.not_mem_nil t)
  | cons t0 rest ih =>
    intro t h
    by_cases h1 : t0 < now - window
    · simp only [dropOld, if_pos h1] at h
      exact List.mem_cons_of_mem t0 (ih h)
    · simp only [dropOld, if_neg h1] at h
      exact h

theorem dropOld_lower_bound {now window : ℚ} :
    ∀ {l : List ℚ}, l.Sorted (· ≤ ·) → ∀ t ∈ dropOld now window l, now - window ≤ t := by
  intro l
  induction l with
  | nil => intro _ t h; exact absurd h (List.not_mem_nil t)
  | cons t0 rest ih =>
    intro hs t h
    rcases List.sorted_cons.mp hs with ⟨hle, hrest⟩
    by_cases h1 : t0 < now - window
    · simp only [dropOld, if_pos h1] at h
      exact ih hrest t h
    · simp only [dropOld, if_neg h1] at h
      rcases List.mem_cons.mp h with h2 | h2
      · subst h2; linarith [not_lt.mp h1]
      · have := hle t h2
        linarith [not_lt.mp h1]

/-- Claim C4: after a true is_allowed result, len(requests) ≤ max_requests,
every retained timestamp lies within window_seconds of now, and
wait_seconds = 0; a false result reports the time until the oldest retained
timestamp exits the window; and with max_requests 5 and window 1s, five
calls at t = 0 succeed, a sixth at t = 0 fails with wait 1 > 0, and a
seventh at t = 1.01 succeeds. -/
theorem sliding_window_invariant (s : SlidingWindowRateLimiter) (now w t : ℚ)
    (s1 : SlidingWindowRateLimiter)
    (hmax : 0 < s.max_requests) (hwin : 0 ≤ s.window_seconds)
    (hsorted : s.requests.Sorted (· ≤ ·)) (hpast : ∀ t1 ∈ s.requests, t1 ≤ now) :
    (s.is_allowed now = some (true, w, s1) →
        (s1.requests.length : Int) ≤ s.max_requests ∧ w = 0
        ∧ (t ∈ s1.requests → now - s.window_seconds ≤ t ∧ t ≤ now))
    ∧ (s.is_allowed now = some (false, w, s1) →
        dropOld now s.window_seconds s.requests ≠ []
        ∧ s1.requests = dropOld now s.window_seconds s.requests
        ∧ w = s.window_seconds
            - (now - (dropOld now s.window_seconds s.requests).headI))
    ∧ (((⟨5, 1, []⟩ : SlidingWindowRateLimiter).is_allowed 0
          = some (true, 0, ⟨5, 1, [0]⟩))
      ∧ ((⟨5, 1, [0]⟩ : SlidingWindowRateLimiter).is_allowed 0
          = some (true, 0, ⟨5, 1, [0, 0]⟩))
      ∧ ((⟨5, 1, [0, 0]⟩ : SlidingWindowRateLimiter).is_allowed 0
          = some (true, 0, ⟨5, 1, [0, 0, 0]⟩))
      ∧ ((⟨5, 1, [0, 0, 0]⟩ : SlidingWindowRateLimiter).is_allowed 0
          = some (true, 0, ⟨5, 1, [0, 0, 0, 0]⟩))
      ∧ ((⟨5, 1, [0, 0, 0, 0]⟩ : SlidingWindowRateLimiter).is_allowed 0
          = some (true, 0, ⟨5, 1, [0, 0, 0, 0, 0]⟩))
      ∧ ((⟨5, 1, [0, 0, 0, 0, 0]⟩ : SlidingWindowRateLimiter).is_allowed 0
          = some (false, 1, ⟨5, 1, [0, 0, 0, 0, 0]⟩)) ∧ (0 : ℚ) < 1
      ∧ ((⟨5, 1, [0, 0, 0, 0, 0]⟩ : SlidingWindowRateLimiter).is_allowed (101 / 100)
          = some (true, 0, ⟨5, 1, [101 / 100]⟩))) := by
  refine ⟨?_, ?_, ?_⟩
  · intro h
    unfold SlidingWindowRateLimiter.is_allowed at h
    by_cases hg : ((dropOld now s.window_seconds s.requests).length : Int) < s.max_requests
    · rw [if_pos hg] at h
      simp only [Option.some.injEq, Prod.mk.injEq] at h
      obtain ⟨_, hw, hs1⟩ := h
      refine ⟨?_, hw.symm, ?_⟩
      · rw [← hs1]
        simp only [List.length_append, List.length_singleton]
        push_cast
        push_cast at hg
        omega
      · intro ht
        rw [← hs1] at ht
        simp only [List.mem_append, List.mem_singleton] at ht
        rcases ht with ht | ht
        · exact ⟨dropOld_lower_bound hsorted t ht, hpast t (mem_dropOld ht)⟩
        · rw [ht]
          exact ⟨by linarith, le_refl now⟩
    · rw [if_neg hg] at h
      cases hd : dropOld now s.window_seconds s.requests with
      | nil => rw [hd] at h; cases h
      | cons t0 rest =>
        rw [hd] at h
        simp only [Option.some.injEq, Prod.mk.injEq] at h
        cases h.1
  · intro h
    unfold SlidingWindowRateLimiter.is_allowed at h
    by_cases hg : ((dropOld now s.window_seconds s.requests).length : Int) < s.max_requests
    · rw [if_pos hg] at h
      simp only [Option.some.injEq, Prod.mk.injEq] at h
      cases h.1
    · rw [if_neg hg] at h
      cases hd : dropOld now s.window_seconds s.requests with
      | nil => rw [hd] at h; cases h
      | cons t0 rest =>
        rw [hd] at h
        simp only [Option.some.injEq, Prod.mk.injEq] at h
        obtain ⟨_, hw, hs1⟩ := h
        exact ⟨by simp, by rw [← hs1], by rw [← hw]; simp [List.headI]⟩
  · refine ⟨?_, ?_, ?_, ?_, ?_, ?_, by norm_num, ?_⟩ <;>
      norm_num [SlidingWindowRateLimiter.is_allowed, dropOld]

/-- Witness for C4: the boundary scenario at max_requests 5 and window 1. -/
theorem sliding_window_invariant_witness :
    ((⟨5, 1, []⟩ : SlidingWindowRateLimiter).is_allowed 0 = some (true, 0, ⟨5, 1, [0]⟩))
    ∧ ((⟨5, 1, [0]⟩ : SlidingWindowRateLimiter).is_allowed 0
        = some (true, 0, ⟨5, 1, [0, 0]⟩))
    ∧ ((⟨5, 1, [0, 0]⟩ : SlidingWindowRateLimiter).is_allowed 0
        = some (true, 0, ⟨5, 1, [0, 0, 0]⟩))
    ∧ ((⟨5, 1, [0, 0, 0]⟩ : SlidingWindowRateLimiter).is_allowed 0
        = some (true, 0, ⟨5, 1, [0, 0, 0, 0]⟩))
    ∧ ((⟨5, 1, [0, 0, 0, 0]⟩ : SlidingWindowRateLimiter).is_allowed 0
        = some (true, 0, ⟨5, 1, [0, 0, 0, 0, 0]⟩))
    ∧ ((⟨5, 1, [0, 0, 0, 0, 0]⟩ : SlidingWindowRateLimiter).is_allowed 0
        = some (false, 1, ⟨5, 1, [0, 0, 0, 0, 0]⟩)) ∧ (0 : ℚ) < 1
    ∧ ((⟨5, 1, [0, 0, 0, 0, 0]⟩ : SlidingWindowRateLimiter).is_allowed (101 / 100)
        = some (true, 0, ⟨5, 1, [101 / 100]⟩)) :=
  (sliding_window_invariant (⟨5, 1, []⟩ : SlidingWindowRateLimiter) 0 0 0
    (⟨5, 1, []⟩ : SlidingWindowRateLimiter) (by decide) (by norm_num)
    (by simp) (by simp)).2.2

/-! SessionManager (auth_optimized.py).  The OrderedDict self.sessions maps
tokens to session dicts; front = least recently used.  The cleanup thread
is an efficiency measure; get_session self-checks expiry. -/

structure Session (β : Type) where
  user_id : String
  user_data : β
  created_at : ℚ
  last_accessed : ℚ
  expires_at : ℚ
  deriving DecidableEq

structure SessionManager (β : Type) where
  max_sessions : Int
  session_ttl : ℚ
  sessions : List (String × Session β)

/-- SessionManager.create_session: evict the least-recently-used session at
capacity (popitem(last=False); none marks the KeyError on an empty dict,
reachable only when max_sessions ≤ 0), then store the fresh session and
move it to the most-recent end.  The secrets.token_urlsafe token is the
explicit token argument. -/
def SessionManager.create_session {β : Type} (m : SessionManager β) (now : ℚ)
    (token user_id : String) (user_data : β) : Option (SessionManager β) :=
  let s : Session β := { user_id := user_id, user_data := user_data, created_at := now,
                         last_accessed := now, expires_at := now + m.session_ttl }
  if (m.sessions.length : Int) ≥ m.max_sessions then
    match m.sessions with
    | [] => none
    | _ :: rest => some { m with sessions := moveToEnd token (setKey token s rest) }
  else
    some { m with sessions := moveToEnd token (setKey token s m.sessions) }

/-- SessionManager.get_session: None on absent token; delete and None once
now is strictly past expires_at; otherwise update last_accessed, move the
token to the most-recent end, and return the payload.  expires_at is not
touched on this path. -/
def SessionManager.get_session {β : Type} (m : SessionManager β) (now : ℚ) (token : String) :
    Option β × SessionManager β :=
  match lookup token m.sessions with
  | none => (none, m)
  | some s =>
    if now > s.expires_at then
      (none, { m with sessions := eraseKey token m.sessions })
    else
      (some s.user_data,
        { m with sessions :=
            moveToEnd token (setKey token { s with last_accessed := now } m.sessions) })

/-- SessionManager.delete_session: remove the token if present and report
whether it was present. -/
def SessionManager.delete_session {β : Type} (m : SessionManager β) (token : String) :
    Bool × SessionManager β :=
  match lookup token m.sessions with
  | some _ => (true, { m with sessions := eraseKey token m.sessions })
  | none => (false, m)

/-- Counterexample to claim C5: a successful get_session does not refresh
expires_at.  A session created at time 0 with ttl 100 is read successfully
at time 50; last_accessed becomes 50 but expires_at stays 100 instead of
being restarted to 50 + 100. -/
theorem session_get_no_ttl_refresh_cx :
    SessionManager.create_session (⟨10, 100, []⟩ : SessionManager Nat) 0 "t" "u" 7
      = some ⟨10, 100, [("t", ⟨"u", 7, 0, 0, 100⟩)]⟩
    ∧ ((⟨10, 100, [("t", ⟨"u", 7, 0, 0, 100⟩)]⟩ : SessionManager Nat).get_session 50 "t").1
        = some 7
    ∧ lookup "t" ((⟨10, 100, [("t", ⟨"u", 7, 0, 0, 100⟩)]⟩ :
        SessionManager Nat).get_session 50 "t").2.sessions = some ⟨"u", 7, 0, 50, 100⟩
    ∧ (100 : ℚ) ≠ 50 + 100 := by
  refine ⟨?_, ?_, ?_, by norm_num⟩
  · simp only [SessionManager.create_session]
    norm_num [setKey, moveToEnd, lookup, eraseKey]
  · simp only [SessionManager.get_session, lookup]
    norm_num
  · simp only [SessionManager.get_session, lookup]
    norm_num [setKey, moveToEnd, lookup, eraseKey]

/-- Claim C5 as amended: for an active, unexpired session a successful
get_session returns the payload, refreshes last_accessed, and moves the
session to the most-recently-used end, but leaves expires_at unchanged (the
TTL clock does not restart; only extend_session extends it). -/
theorem session_get_refresh {β : Type} (m : SessionManager β) (now : ℚ) (token : String)
    (s : Session β) (hs : lookup token m.sessions = some s)
    (hunexp : ¬ now > s.expires_at) :
    (m.get_session now token).1 = some s.user_data
    ∧ lookup token (m.get_session now token).2.sessions
        = some { s with last_accessed := now }
    ∧ (m.get_session now token).2.sessions
        = eraseKey token (setKey token { s with last_accessed := now } m.sessions)
          ++ [(token, { s with last_accessed := now })] := by
  simp only [SessionManager.get_session, hs, if_neg hunexp]
  refine ⟨trivial, ?_, ?_⟩
  · rw [moveToEnd_of_lookup_some (lookup_setKey_self token _ m.sessions)]
    rw [lookup_append_of_none (lookup_eraseKey_self token _)]
    simp [lookup]
  · rw [moveToEnd_of_lookup_some (lookup_setKey_self token _ m.sessions)]

/-- Witness for the amended C5 at a concrete unexpired session. -/
theorem session_get_refresh_witness :
    ((⟨10, 100, [("t", ⟨"u", 7, 0, 0, 100⟩)]⟩ : SessionManager Nat).get_session 50 "t").1
      = some 7
    ∧ lookup "t" ((⟨10, 100, [("t", ⟨"u", 7, 0, 0, 100⟩)]⟩ :
        SessionManager Nat).get_session 50 "t").2.sessions = some ⟨"u", 7, 0, 50, 100⟩
    ∧ ((⟨10, 100, [("t", ⟨"u", 7, 0, 0, 100⟩)]⟩ :
        SessionManager Nat).get_session 50 "t").2.sessions
      = eraseKey "t" (setKey "t" (⟨"u", 7, 0, 50, 100⟩ : Session Nat)
          [("t", ⟨"u", 7, 0, 0, 100⟩)])
        ++ [("t", ⟨"u", 7, 0, 50, 100⟩)] :=
  session_get_refresh (⟨10, 100, [("t", ⟨"u", 7, 0, 0, 100⟩)]⟩ : SessionManager Nat)
    50 "t" ⟨"u", 7, 0, 0, 100⟩ (by decide) (by norm_num)

/-- Claim C8: a get_session on an expired token returns None exactly like an
absent token does, and additionally removes the expired entry;
delete_session is idempotent, returning true exactly when the token was
present and leaving the store unchanged (and returning false) when absent. -/
theorem session_expired_like_absent_delete_idempotent {β : Type}
    (m m2 : SessionManager β) (now : ℚ) (token : String) (s : Session β)
    (hs : lookup token m.sessions = some s) (hexp : now > s.expires_at)
    (habs : lookup token m2.sessions = none) :
    (m.get_session now token).1 = none
    ∧ lookup token (m.get_session now token).2.sessions = none
    ∧ m2.get_session now token = (none, m2)
    ∧ (m.delete_session token).1 = true
    ∧ lookup token (m.delete_session token).2.sessions = none
    ∧ m2.delete_session token = (false, m2) := by
  refine ⟨?_, ?_, ?_, ?_, ?_, ?_⟩
  · simp [SessionManager.get_session, hs, if_pos hexp]
  · simp [SessionManager.get_session, hs, if_pos hexp]
  · simp [SessionManager.get_session, habs]
  · simp [SessionManager.delete_session, hs]
  · simp [SessionManager.delete_session, hs]
  · simp [SessionManager.delete_session, habs]

/-- Witness for C8 at a concrete expired session and an empty store. -/
theorem session_expired_like_absent_delete_idempotent_witness :
    (((⟨10, 100, [("t", ⟨"u", 7, 0, 0, 100⟩)]⟩ : SessionManager Nat).get_session 200 "t")).1
      = none
    ∧ lookup "t" ((⟨10, 100, [("t", ⟨"u", 7, 0, 0, 100⟩)]⟩ :
        SessionManager Nat).get_session 200 "t").2.sessions = none
    ∧ (⟨10, 100, []⟩ : SessionManager Nat).get_session 200 "t"
        = (none, (⟨10, 100, []⟩ : SessionManager Nat))
    ∧ ((⟨10, 100, [("t", ⟨"u", 7, 0, 0, 100⟩)]⟩ :
        SessionManager Nat).delete_session "t").1 = true
    ∧ lookup "t" ((⟨10, 100, [("t", ⟨"u", 7, 0, 0, 100⟩)]⟩ :
        SessionManager Nat).delete_session "t").2.sessions = none
    ∧ (⟨10, 100, []⟩ : SessionManager Nat).delete_session "t"
        = (false, (⟨10, 100, []⟩ : SessionManager Nat)) :=
  session_expired_like_absent_delete_idempotent
    (⟨10, 100, [("t", ⟨"u", 7, 0, 0, 100⟩)]⟩ : SessionManager Nat)
    (⟨10, 100, []⟩ : SessionManager Nat) 200 "t" ⟨"u", 7, 0, 0, 100⟩
    (by decide) (by norm_num) rfl

/-! ConnectionPool (database_optimized.py).  Connections are opaque handles
(numbered here); the Queue of idle connections is a FIFO list; checked-out
handles are tracked to state the bound.  Acquire/release are modelled as a
transition relation whose steps are the atomic outcomes of get_connection:
take an idle connection, create one below the limit, or time out; on
release a healthy connection returns to the queue and a broken one is
closed and decounted.  Note that __init__ pre-creates min(3, max)
connections and counts them but never puts them into the queue (the Python
loop discards the handles), which the model reproduces. -/

structure PoolState where
  max_connections : Int
  created_connections : Int
  pool : List Nat
  checked_out : List Nat
  next_id : Nat
  deriving DecidableEq

/-- ConnectionPool.__init__: counts min(3, max_connections) pre-created
connections (range of a negative number is empty); the queue starts empty
because the pre-created handles are dropped. -/
def PoolState.init (max_connections : Int) : PoolState :=
  { max_connections := max_connections,
    created_connections := ((min 3 max_connections).toNat : Int),
    pool := [], checked_out := [],
    next_id := (min 3 max_connections).toNat }

/-- Atomic outcomes of get_connection (lines 50-82 of
database_optimized.py): acquire from the queue, create below the limit,
time out empty-handed, and the two release paths of the finally block. -/
inductive PoolStep : PoolState → PoolState → Prop
  | acquireFromPool (s : PoolState) (c : Nat) (rest : List Nat) :
      s.pool = c :: rest →
      PoolStep s { s with pool := rest, checked_out := c :: s.checked_out }
  | acquireCreate (s : PoolState) :
      s.pool = [] → s.created_connections < s.max_connections →
      PoolStep s { s with created_connections := s.created_connections + 1,
                          checked_out := s.next_id :: s.checked_out,
                          next_id := s.next_id + 1 }
  | acquireTimeout (s : PoolState) :
      s.pool = [] → ¬ s.created_connections < s.max_connections →
      PoolStep s s
  | releaseHealthy (s : PoolState) (c : Nat) :
      c ∈ s.checked_out →
      PoolStep s { s with checked_out := s.checked_out.erase c, pool := s.pool ++ [c] }
  | releaseBroken (s : PoolState) (c : Nat) :
      c ∈ s.checked_out →
      PoolStep s { s with checked_out := s.checked_out.erase c,
                          created_connections := s.created_connections - 1 }

/-- States reachable from a freshly constructed pool. -/
inductive PoolReachable (m : Int) : PoolState → Prop
  | init : PoolReachable m (PoolState.init m)
  | step {s t : PoolState} : PoolReachable m s → PoolStep s t → PoolReachable m t

theorem pool_inv {m : Int} (hm : 0 ≤ m) {s : PoolState} (h : PoolReachable m s) :
    s.max_connections = m ∧ s.created_connections ≤ m
    ∧ ((s.pool.length + s.checked_out.length : Int)) ≤ s.created_connections := by
  induction h with
  | init =>
    have h0 : (0 : Int) ≤ min 3 m := le_min (by norm_num) hm
    refine ⟨rfl, ?_, ?_⟩
    · simp only [PoolState.init]
      rw [Int.toNat_of_nonneg h0]
      omega
    · simp only [PoolState.init]
      rw [Int.toNat_of_nonneg h0]
      simp
      omega
  | step hr hstep ih =>
    obtain ⟨hmax, hcre, hlen⟩ := ih
    cases hstep with
    | acquireFromPool c rest hpool =>
      refine ⟨hmax, hcre, ?_⟩
      dsimp only
      rw [hpool] at hlen
      simp only [List.length_cons] at hlen ⊢
      push_cast at hlen ⊢
      omega
    | acquireCreate hpool hlt =>
      refine ⟨hmax, by dsimp only; omega, ?_⟩
      dsimp only
      rw [hpool] at hlen ⊢
      simp only [List.length_nil, List.length_cons] at hlen ⊢
      push_cast at hlen ⊢
      omega
    | acquireTimeout hpool hge => exact ⟨hmax, hcre, hlen⟩
    | releaseHealthy c hc =>
      refine ⟨hmax, hcre, ?_⟩
      have hpos := List.length_pos_of_mem hc
      dsimp only
      simp only [List.length_append, List.length_singleton,
        List.length_erase_of_mem hc]
      push_cast at hlen ⊢
      omega
    | releaseBroken c hc =>
      refine ⟨hmax, by dsimp only; omega, ?_⟩
      have hpos := List.length_pos_of_mem hc
      dsimp only
      simp only [List.length_erase_of_mem hc]
      push_cast at hlen ⊢
      omega

/-- Claim C6: in every reachable state of a ConnectionPool with
max_connections M ≥ 0, the number of simultaneously checked-out handles
never exceeds M and created_connections ≤ M; and releasing a connection
that fails its health check is a legal step that leaves the idle queue
unchanged (the broken handle is not returned) and decrements
created_connections. -/
theorem connection_pool_bound (m : Int) (s : PoolState) (c : Nat)
    (hm : 0 ≤ m) (hreach : PoolReachable m s) (hc : c ∈ s.checked_out) :
    ((s.checked_out.length : Int) ≤ m ∧ s.created_connections ≤ m)
    ∧ PoolStep s
        { s with
          checked_out := s.checked_out.erase c
          created_connections := s.created_connections - 1 }
    ∧ ({ s with
          checked_out := s.checked_out.erase c
          created_connections := s.created_connections - 1 } : PoolState).pool = s.pool := by
  obtain ⟨hmax, hcre, hlen⟩ := pool_inv hm hreach
  refine ⟨⟨?_, hcre⟩, PoolStep.releaseBroken s c hc, rfl⟩
  push_cast at hlen
  omega

/-- Witness for C6: with max_connections 5, the state after one created
acquisition is reachable and satisfies the bounds; breaking that
connection on release is a legal step. -/
theorem connection_pool_bound_witness :
    ((((⟨5, 4, [], [3], 4⟩ : PoolState).checked_out.length : Int) ≤ 5
      ∧ (⟨5, 4, [], [3], 4⟩ : PoolState).created_connections ≤ 5)
    ∧ PoolStep (⟨5, 4, [], [3], 4⟩ : PoolState) (⟨5, 3, [], [], 4⟩ : PoolState)
    ∧ (⟨5, 3, [], [], 4⟩ : PoolState).pool = (⟨5, 4, [], [3], 4⟩ : PoolState).pool) :=
  connection_pool_bound 5 (⟨5, 4, [], [3], 4⟩ : PoolState) 3 (by norm_num)
    (PoolReachable.step PoolReachable.init
      (PoolStep.acquireCreate (PoolState.init 5) rfl (by decide)))
    (by decide)

/-- Counterexample to claim C9: no toolkit constructor validates its
capacity parameters, so construction with zero or negative capacity
succeeds (the initializers are total and just store the values), and the
misconfiguration surfaces later during operations: LRUCache(max_size=0).set
raises StopIteration evicting from an empty dict (the none result),
TokenBucketRateLimiter(capacity=10, refill_rate=0).consume(11) raises
ZeroDivisionError on the failure branch (the none result), and
ConnectionPool(max_connections=0) is built with zero pre-created
connections after which get_connection can only time out. -/
theorem no_construction_validation_cx :
    LRUCache.init Nat 0 3600 = ⟨0, 3600, [], [], 0, 0⟩
    ∧ (LRUCache.init Nat 0 3600).set 0 "k" (some 1) = none
    ∧ TokenBucketRateLimiter.init 10 0 0 = ⟨10, 0, 10, 0⟩
    ∧ (TokenBucketRateLimiter.init 10 0 0).consume 0 11 = none
    ∧ PoolState.init 0 = ⟨0, 0, [], [], 0⟩
    ∧ PoolStep (PoolState.init 0) (PoolState.init 0) := by
  refine ⟨rfl, ?_, rfl, ?_, by decide, ?_⟩
  · simp only [LRUCache.set, LRUCache.init]
    norm_num
  · norm_num [TokenBucketRateLimiter.consume, TokenBucketRateLimiter.refillAmount,
      TokenBucketRateLimiter.init]
  · exact PoolStep.acquireTimeout (PoolState.init 0) rfl (by decide)

/-- Claim C9 as amended: the constructors perform no validation at all —
with any zero-or-negative max_size, a zero refill_rate, or a
zero-or-negative max_connections, construction succeeds and stores the
values unchecked, and the error surfaces only later during operations
(LRUCache.set hits StopIteration, TokenBucketRateLimiter.consume hits
ZeroDivisionError when the failure branch divides by refill_rate = 0, and
a zero-capacity ConnectionPool can only time out on acquisition). -/
theorem no_construction_validation {β : Type} (ms mc : Int) (ttl cap t now n : ℚ)
    (key : String) (v : Option β)
    (hms : ms ≤ 0) (hmc : mc ≤ 0) (hn : cap < n) :
    LRUCache.init β ms ttl = ⟨ms, ttl, [], [], 0, 0⟩
    ∧ (LRUCache.init β ms ttl).set now key v = none
    ∧ TokenBucketRateLimiter.init cap 0 t = ⟨cap, 0, cap, t⟩
    ∧ (TokenBucketRateLimiter.init cap 0 t).consume now n = none
    ∧ PoolState.init mc = ⟨mc, 0, [], [], 0⟩
    ∧ PoolStep (PoolState.init mc) (PoolState.init mc) := by
  refine ⟨rfl, ?_, rfl, ?_, ?_, ?_⟩
  · simp only [LRUCache.set, LRUCache.init]
    rw [if_pos ⟨rfl, by simpa using hms⟩]
  · have hrefill : (TokenBucketRateLimiter.init cap 0 t).refillAmount now = cap := by
      simp [TokenBucketRateLimiter.refillAmount, TokenBucketRateLimiter.init]
    simp only [TokenBucketRateLimiter.consume, hrefill]
    rw [if_neg (by simpa using hn),
      if_pos (show (TokenBucketRateLimiter.init cap 0 t).refill_rate = 0 from rfl)]
  · have h3 : min 3 mc = mc := min_eq_right (by omega)
    simp [PoolState.init, h3, Int.toNat_of_nonpos hmc]
  · refine PoolStep.acquireTimeout (PoolState.init mc) rfl ?_
    simp only [PoolState.init]
    intro hlt
    have : (0 : Int) ≤ ((min 3 mc).toNat : Int) := Int.natCast_nonneg _
    omega

/-- Witness for the amended C9 at concrete zero capacities. -/
theorem no_construction_validation_witness :
    LRUCache.init Nat 0 3600 = ⟨0, 3600, [], [], 0, 0⟩
    ∧ (LRUCache.init Nat 0 3600).set 5 "k" (some 1) = none
    ∧ TokenBucketRateLimiter.init 10 0 2 = ⟨10, 0, 10, 2⟩
    ∧ (TokenBucketRateLimiter.init 10 0 2).consume 5 11 = none
    ∧ PoolState.init 0 = ⟨0, 0, [], [], 0⟩
    ∧ PoolStep (PoolState.init 0) (PoolState.init 0) :=
  no_construction_validation 0 0 3600 10 2 5 11 "k" (some 1)
    (by norm_num) (by norm_num) (by norm_num)

end VibeCoding
